import Mathlib

/-!
Shallow embedding of the librdkafka generic hash map (src/rdmap.h) and
of its typed-facade macro layer.

The reviewed source ships the header only: struct layouts, API
declarations with their documented behaviour, the two inline iterator
functions `rd_map_iter` / `rd_map_iter_next`, and the typed-facade
macros.  The engine bodies (rdmap.c) are not part of the source, so
every engine operation below is modelled from the spec, as stated in
its doc comment.

Modelling choices:
- An element (`rd_map_elem_t`) records its precomputed hash, its key and
  its value; a NULL value pointer is `none`.
- An element lives in bucket `hash % bucket_cnt`, so the bucket array is
  represented by the bucket count alone and a bucket chain is the
  subsequence of the iteration list whose elements fall in that bucket.
  New elements are prepended to the iteration list (head insertion, as
  the spec permits), so chain scan order coincides with iteration-list
  order and a single list carries both structures.
- The registered destructor callbacks are represented by two booleans
  (key destructor registered, value destructor registered); each
  destroying operation returns, besides the new map, the list of keys
  and the list of values handed to the destructors, in call order.
- The comparator and hash callbacks are fixed at `rd_map_init` time and
  never change, so they are passed to each operation as parameters
  rather than stored in the state, keeping the state decidably equal.
-/

/-- Map element (`rd_map_elem_s`): precomputed key hash, key, value.
A NULL value pointer is `none`. -/
structure rd_map_elem_t (K V : Type) where
  hash : Nat
  key : K
  value : Option V
deriving DecidableEq, Repr

/-- Hash map state (`rd_map_s`): bucket count (`rmap_buckets.cnt`),
iteration list (`rmap_iter`, which together with the bucket count also
determines every bucket chain), and element count (`rmap_cnt`). -/
structure rd_map_t (K V : Type) where
  bucket_cnt : Nat
  rmap_iter : List (rd_map_elem_t K V)
  rmap_cnt : Nat
deriving DecidableEq, Repr

section Engine

variable {K V : Type}

/-- Modelled from the spec: bucket-count selection of
`rd_map_alloc_buckets` (body absent from the header).  A capacity hint
of zero selects an implementation-defined reasonable default; otherwise
the hint sizes the array.  The chosen count is always positive. -/
def rd_map_alloc_buckets (expected_cnt : Nat) : Nat :=
  if expected_cnt = 0 then 16 else expected_cnt

/-- Modelled from the spec: an element is examined by a lookup of key
`k` when it lies in the bucket `hash(k) % bucket_cnt` and the comparator
reports the keys equal (`cmp = 0`). -/
def rd_map_elem_matches (cmp : K → K → Int) (hashf : K → Nat)
    (bucket_cnt : Nat) (k : K) (e : rd_map_elem_t K V) : Bool :=
  (e.hash % bucket_cnt == hashf k % bucket_cnt) && (cmp k e.key == 0)

/-- Modelled from the spec: locate the bucket of `k` and scan its chain
with the comparator, returning the first element with an equal key. -/
def rd_map_find (cmp : K → K → Int) (hashf : K → Nat)
    (m : rd_map_t K V) (k : K) : Option (rd_map_elem_t K V) :=
  m.rmap_iter.find? (rd_map_elem_matches cmp hashf m.bucket_cnt k)

/-- Modelled from the spec: `rd_map_get` returns the stored value on a
match and NULL (`none`) otherwise; a stored NULL value is returned as
NULL as well, exactly as the C interface conflates the two. -/
def rd_map_get (cmp : K → K → Int) (hashf : K → Nat)
    (m : rd_map_t K V) (k : K) : Option V :=
  match rd_map_find cmp hashf m k with
  | some e => e.value
  | none => none

/-- Chain scan of `rd_map_get` written as the loop the spec describes,
used by the state-passing form of the operation. -/
def rd_map_get_loop (cmp : K → K → Int) (hashf : K → Nat)
    (bucket_cnt : Nat) (k : K) : List (rd_map_elem_t K V) → Option V
  | [] => none
  | e :: rest =>
    if rd_map_elem_matches cmp hashf bucket_cnt k e then e.value
    else rd_map_get_loop cmp hashf bucket_cnt k rest

/-- Modelled from the spec: `rd_map_get` as a state transformer — the
spec states the operation never mutates the map, so the scan threads the
state through unchanged and yields the looked-up value. -/
def rd_map_get_run (cmp : K → K → Int) (hashf : K → Nat)
    (m : rd_map_t K V) (k : K) : Option V × rd_map_t K V :=
  (rd_map_get_loop cmp hashf m.bucket_cnt k m.rmap_iter, m)

/-- Modelled from the spec: the scan-and-replace step of `rd_map_set`.
On the first matching element the new key and value are installed into
the existing node in place (hash and hence bucket/iteration position
unchanged) and the old node contents are returned for destruction;
otherwise the list is left as it was and `none` is returned. -/
def rd_map_set_list (cmp : K → K → Int) (hashf : K → Nat)
    (bucket_cnt : Nat) (k : K) (v : V) :
    List (rd_map_elem_t K V) →
      List (rd_map_elem_t K V) × Option (rd_map_elem_t K V)
  | [] => ([], none)
  | e :: rest =>
    if rd_map_elem_matches cmp hashf bucket_cnt k e then
      ({ hash := e.hash, key := k, value := some v } :: rest, some e)
    else
      let p := rd_map_set_list cmp hashf bucket_cnt k v rest
      (e :: p.1, p.2)

/-- Modelled from the spec: `rd_map_set`.  If a matching element exists
its old key and value are destroyed via the registered destructors and
the new pair is installed in place, count unchanged; otherwise a new
node is allocated, linked into its bucket chain and the iteration list
(head insertion), and the count is incremented.  The two returned lists
record the destructor invocations. -/
def rd_map_set (cmp : K → K → Int) (hashf : K → Nat)
    (destroy_key destroy_value : Bool) (m : rd_map_t K V) (k : K) (v : V) :
    rd_map_t K V × List K × List (Option V) :=
  match rd_map_set_list cmp hashf m.bucket_cnt k v m.rmap_iter with
  | (iter2, some old) =>
    ({ m with rmap_iter := iter2 },
     if destroy_key then [old.key] else [],
     if destroy_value then [old.value] else [])
  | (_, none) =>
    ({ m with
        rmap_iter := { hash := hashf k, key := k, value := some v } :: m.rmap_iter,
        rmap_cnt := m.rmap_cnt + 1 },
     [], [])

/-- Modelled from the spec: `rd_map_get_elem` returns the element node
for `k`, creating (and counting) a node with the given key and an
unset/NULL value on a miss. -/
def rd_map_get_elem (cmp : K → K → Int) (hashf : K → Nat)
    (m : rd_map_t K V) (k : K) : rd_map_elem_t K V × rd_map_t K V :=
  match rd_map_find cmp hashf m k with
  | some e => (e, m)
  | none =>
    let e : rd_map_elem_t K V := { hash := hashf k, key := k, value := none }
    (e, { m with rmap_iter := e :: m.rmap_iter, rmap_cnt := m.rmap_cnt + 1 })

/-- Modelled from the spec: the scan-and-unlink step of `rd_map_delete`.
The first matching element is unlinked and returned for destruction;
with no match the list is unchanged and `none` is returned. -/
def rd_map_delete_list (cmp : K → K → Int) (hashf : K → Nat)
    (bucket_cnt : Nat) (k : K) :
    List (rd_map_elem_t K V) →
      List (rd_map_elem_t K V) × Option (rd_map_elem_t K V)
  | [] => ([], none)
  | e :: rest =>
    if rd_map_elem_matches cmp hashf bucket_cnt k e then (rest, some e)
    else
      let p := rd_map_delete_list cmp hashf bucket_cnt k rest
      (e :: p.1, p.2)

/-- Modelled from the spec: `rd_map_delete`.  On a match the element is
unlinked from bucket chain and iteration list, its key and value are
destroyed via the registered destructors and the count is decremented;
on a miss the map is left untouched and no destructor runs. -/
def rd_map_delete (cmp : K → K → Int) (hashf : K → Nat)
    (destroy_key destroy_value : Bool) (m : rd_map_t K V) (k : K) :
    rd_map_t K V × List K × List (Option V) :=
  match rd_map_delete_list cmp hashf m.bucket_cnt k m.rmap_iter with
  | (_, none) => (m, [], [])
  | (iter2, some old) =>
    ({ m with rmap_iter := iter2, rmap_cnt := m.rmap_cnt - 1 },
     if destroy_key then [old.key] else [],
     if destroy_value then [old.value] else [])

/-- Current number of elements in the map (`rd_map_cnt`), O(1). -/
def rd_map_cnt (m : rd_map_t K V) : Nat :=
  m.rmap_cnt

/-- Modelled from the spec: `rd_map_init` overwrites the caller-owned
handle with a fresh state — a bucket array sized from the capacity hint,
zero elements, empty iteration list.  The previous contents of the
handle are irrelevant. -/
def rd_map_init (_m : rd_map_t K V) (expected_cnt : Nat) : rd_map_t K V :=
  { bucket_cnt := rd_map_alloc_buckets expected_cnt,
    rmap_iter := [],
    rmap_cnt := 0 }

/-- Modelled from the spec: `rd_map_destroy` hands every surviving
element's key and value to the registered destructors (once per
element, in iteration order), frees all nodes and the bucket array.
The returned lists record the destructor invocations. -/
def rd_map_destroy (destroy_key destroy_value : Bool) (m : rd_map_t K V) :
    rd_map_t K V × List K × List (Option V) :=
  ({ bucket_cnt := 0, rmap_iter := [], rmap_cnt := 0 },
   if destroy_key then m.rmap_iter.map (fun e => e.key) else [],
   if destroy_value then m.rmap_iter.map (fun e => e.value) else [])

/-- Modelled from the spec: `rd_map_iter_begin` positions the cursor at
the first element of the iteration sequence.  A cursor is the remaining
suffix of the iteration list; the NULL element pointer is `[]`. -/
def rd_map_iter_begin (m : rd_map_t K V) : List (rd_map_elem_t K V) :=
  m.rmap_iter

/-- From the header (inline body): `return *elem != NULL;` — 1 when the
cursor denotes a real element, 0 when it is exhausted. -/
def rd_map_iter (c : List (rd_map_elem_t K V)) : Nat :=
  if c.isEmpty then 0 else 1

/-- From the header (inline body): `*elem = LIST_NEXT(*elem, link);` —
advancing dereferences the current element, so an exhausted (NULL)
cursor has no defined result (`none`); otherwise the cursor moves to
the successor in the iteration sequence. -/
def rd_map_iter_next (c : List (rd_map_elem_t K V)) :
    Option (List (rd_map_elem_t K V)) :=
  match c with
  | [] => none
  | _ :: rest => some rest

/-- The `RD_MAP_FOREACH_ELEM` loop: starting from a cursor, while
`rd_map_iter` reports 1, visit the current element and advance.  The
advance in the loop body is `rd_map_iter_next`, which on a cursor that
just passed the validity test is exactly the tail. -/
def rd_map_foreach_elem :
    List (rd_map_elem_t K V) → List (rd_map_elem_t K V)
  | [] => []
  | e :: rest =>
    if rd_map_iter (e :: rest) = 1 then e :: rd_map_foreach_elem rest
    else []

end Engine

section Facade

variable {K V : Type}

/-- A typed map (`RD_MAP_TYPE`): the underlying engine map plus the
scratch fields the macros use — the last key and value passed through
the facade and the iteration cursor element.  The scratch fields start
out unset (`none`). -/
structure typed_rd_map (K V : Type) where
  rmap : rd_map_t K V
  key : Option K
  value : Option V
  elem : Option (rd_map_elem_t K V)
deriving DecidableEq, Repr

/-- The `RD_MAP_SET` macro: store the key and value into the scratch
fields, then forward them to `rd_map_set` on the underlying map. -/
def RD_MAP_SET (cmp : K → K → Int) (hashf : K → Nat)
    (destroy_key destroy_value : Bool) (tm : typed_rd_map K V)
    (k : K) (v : V) : typed_rd_map K V × List K × List (Option V) :=
  let tm1 : typed_rd_map K V := { tm with key := some k, value := some v }
  let r := rd_map_set cmp hashf destroy_key destroy_value tm1.rmap k v
  ({ tm1 with rmap := r.1 }, r.2.1, r.2.2)

/-- The `RD_MAP_GET` macro: store the key into the scratch field,
forward to `rd_map_get`, cache the result in the value scratch field
and evaluate to it. -/
def RD_MAP_GET (cmp : K → K → Int) (hashf : K → Nat)
    (tm : typed_rd_map K V) (k : K) : Option V × typed_rd_map K V :=
  let tm1 : typed_rd_map K V := { tm with key := some k }
  let v := rd_map_get cmp hashf tm1.rmap k
  (v, { tm1 with value := v })

/-- The `RD_MAP_DELETE` macro: store the key into the scratch field and
forward to `rd_map_delete` on the underlying map. -/
def RD_MAP_DELETE (cmp : K → K → Int) (hashf : K → Nat)
    (destroy_key destroy_value : Bool) (tm : typed_rd_map K V)
    (k : K) : typed_rd_map K V × List K × List (Option V) :=
  let tm1 : typed_rd_map K V := { tm with key := some k }
  let r := rd_map_delete cmp hashf destroy_key destroy_value tm1.rmap k
  ({ tm1 with rmap := r.1 }, r.2.1, r.2.2)

end Facade

section SpecSide

variable {K V : Type}

/-- Apply a sequence of `rd_map_set` calls in order, discarding the
destructor logs. -/
def rd_map_set_seq (cmp : K → K → Int) (hashf : K → Nat)
    (destroy_key destroy_value : Bool) (m : rd_map_t K V) :
    List (K × V) → rd_map_t K V
  | [] => m
  | (k, v) :: rest =>
    rd_map_set_seq cmp hashf destroy_key destroy_value
      (rd_map_set cmp hashf destroy_key destroy_value m k v).1 rest

/-- Spec-side oracle: the value of the most recent `set` whose key the
comparator deems equal to `k`, if any. -/
def spec_last_set (cmp : K → K → Int) (ops : List (K × V)) (k : K) :
    Option V :=
  ((ops.filter fun p => cmp k p.1 == 0).getLast?).map Prod.snd

/-- Spec-side oracle: the number of comparator-distinct keys in a list,
counting each equivalence class at its last occurrence. -/
def spec_distinct_cnt (cmp : K → K → Int) : List K → Nat
  | [] => 0
  | k :: rest =>
    (if rest.any fun k2 => cmp k k2 == 0 then 0 else 1) +
      spec_distinct_cnt cmp rest

/-- Caller contract on the comparator (spec: `cmp` decides key
equality): key equality is an equivalence. -/
def cmp_equiv (cmp : K → K → Int) : Prop :=
  (∀ a, cmp a a = 0) ∧
  (∀ a b, cmp a b = 0 → cmp b a = 0) ∧
  (∀ a b c, cmp a b = 0 → cmp b c = 0 → cmp a c = 0)

/-- Caller contract on the hash function (spec: equal keys under `cmp`
always produce equal hashes). -/
def hash_compat (cmp : K → K → Int) (hashf : K → Nat) : Prop :=
  ∀ a b, cmp a b = 0 → hashf a = hashf b

/-- Map invariant maintained by the engine: the element count matches
the iteration-list length, the bucket count is positive, every element
carries the hash of its key, and keys are pairwise distinct under the
comparator. -/
def rd_map_wf (cmp : K → K → Int) (hashf : K → Nat)
    (m : rd_map_t K V) : Prop :=
  m.rmap_cnt = m.rmap_iter.length ∧
  0 < m.bucket_cnt ∧
  (∀ e ∈ m.rmap_iter, e.hash = hashf e.key) ∧
  m.rmap_iter.Pairwise fun a b => cmp a.key b.key ≠ 0

end SpecSide

section ExampleContext

/-- Comparator used by the concrete witnesses: 0 on equal keys. -/
def exCmp : Fin 3 → Fin 3 → Int :=
  fun a b => if a = b then 0 else 1

/-- Hash used by the concrete witnesses. -/
def exHash : Fin 3 → Nat :=
  fun a => a.val

/-- An arbitrary stale handle handed to `rd_map_init`. -/
def exM0 : rd_map_t (Fin 3) Nat :=
  { bucket_cnt := 0, rmap_iter := [], rmap_cnt := 0 }

/-- A concrete two-element map built through the engine operations. -/
def exMap1 : rd_map_t (Fin 3) Nat :=
  rd_map_set_seq exCmp exHash true true (rd_map_init exM0 4)
    [(0, 10), (1, 11)]

end ExampleContext

section BasicLemmas

variable {K V : Type}

theorem rd_map_get_loop_eq_find (cmp : K → K → Int) (hashf : K → Nat)
    (bucket_cnt : Nat) (k : K) (l : List (rd_map_elem_t K V)) :
    rd_map_get_loop cmp hashf bucket_cnt k l =
      match l.find? (rd_map_elem_matches cmp hashf bucket_cnt k) with
      | some e => e.value
      | none => none := by
  induction l with
  | nil => rfl
  | cons e rest ih =>
    by_cases h : rd_map_elem_matches cmp hashf bucket_cnt k e
    · simp [rd_map_get_loop, List.find?, h]
    · simp only [rd_map_get_loop, List.find?, h, if_neg, Bool.false_eq_true,
        not_false_iff, if_false]
      simpa [h] using ih

theorem rd_map_set_list_snd (cmp : K → K → Int) (hashf : K → Nat)
    (bucket_cnt : Nat) (k : K) (v : V) (l : List (rd_map_elem_t K V)) :
    (rd_map_set_list cmp hashf bucket_cnt k v l).2 =
      l.find? (rd_map_elem_matches cmp hashf bucket_cnt k) := by
  induction l with
  | nil => rfl
  | cons e rest ih =>
    by_cases h : rd_map_elem_matches cmp hashf bucket_cnt k e
    · simp [rd_map_set_list, List.find?, h]
    · simp [rd_map_set_list, List.find?, h, ih]

theorem rd_map_set_list_fst_of_none (cmp : K → K → Int) (hashf : K → Nat)
    (bucket_cnt : Nat) (k : K) (v : V) (l : List (rd_map_elem_t K V))
    (h : l.find? (rd_map_elem_matches cmp hashf bucket_cnt k) = none) :
    (rd_map_set_list cmp hashf bucket_cnt k v l).1 = l := by
  induction l with
  | nil => rfl
  | cons e rest ih =>
    rw [List.find?_eq_none] at h
    have he : ¬ rd_map_elem_matches cmp hashf bucket_cnt k e = true :=
      h e (List.mem_cons_self e rest)
    have hrest :
        rest.find? (rd_map_elem_matches cmp hashf bucket_cnt k) = none := by
      rw [List.find?_eq_none]
      exact fun x hx => h x (List.mem_cons_of_mem e hx)
    simp [rd_map_set_list, he, ih hrest]

theorem rd_map_delete_list_snd (cmp : K → K → Int) (hashf : K → Nat)
    (bucket_cnt : Nat) (k : K) (l : List (rd_map_elem_t K V)) :
    (rd_map_delete_list cmp hashf bucket_cnt k l).2 =
      l.find? (rd_map_elem_matches cmp hashf bucket_cnt k) := by
  induction l with
  | nil => rfl
  | cons e rest ih =>
    by_cases h : rd_map_elem_matches cmp hashf bucket_cnt k e
    · simp [rd_map_delete_list, List.find?, h]
    · simp [rd_map_delete_list, List.find?, h, ih]

theorem rd_map_delete_list_of_none (cmp : K → K → Int) (hashf : K → Nat)
    (bucket_cnt : Nat) (k : K) (l : List (rd_map_elem_t K V))
    (h : l.find? (rd_map_elem_matches cmp hashf bucket_cnt k) = none) :
    rd_map_delete_list cmp hashf bucket_cnt k l = (l, none) := by
  induction l with
  | nil => rfl
  | cons e rest ih =>
    rw [List.find?_eq_none] at h
    have he : ¬ rd_map_elem_matches cmp hashf bucket_cnt k e = true :=
      h e (List.mem_cons_self e rest)
    have hrest :
        rest.find? (rd_map_elem_matches cmp hashf bucket_cnt k) = none := by
      rw [List.find?_eq_none]
      exact fun x hx => h x (List.mem_cons_of_mem e hx)
    simp [rd_map_delete_list, he, ih hrest]

theorem cmp_eq_congr {K : Type} {cmp : K → K → Int} (hcq : cmp_equiv cmp)
    {k k2 : K} (h : cmp k k2 = 0) (e : K) :
    cmp k e = 0 ↔ cmp k2 e = 0 := by
  obtain ⟨hr, hs, ht⟩ := hcq
  exact ⟨fun he => ht _ _ _ (hs _ _ h) he, fun he => ht _ _ _ h he⟩

theorem rd_map_elem_matches_congr {K V : Type} {cmp : K → K → Int}
    {hashf : K → Nat} (hcq : cmp_equiv cmp) (hhc : hash_compat cmp hashf)
    (b : Nat) {k k2 : K} (h : cmp k k2 = 0) (e : rd_map_elem_t K V) :
    rd_map_elem_matches cmp hashf b k e =
      rd_map_elem_matches cmp hashf b k2 e := by
  have hiff := cmp_eq_congr hcq h e.key
  unfold rd_map_elem_matches
  rw [hhc k k2 h]
  by_cases hk : cmp k e.key = 0
  · simp [hk, hiff.mp hk]
  · have hk2 : cmp k2 e.key ≠ 0 := fun hh => hk (hiff.mpr hh)
    have b1 : (cmp k e.key == 0) = false := by
      simpa using hk
    have b2 : (cmp k2 e.key == 0) = false := by
      simpa using hk2
    rw [b1, b2]

theorem matches_trans_ne {K V : Type} {cmp : K → K → Int}
    {hashf : K → Nat} {b : Nat} {k k2 : K} (hcq : cmp_equiv cmp)
    (hne : cmp k k2 ≠ 0) {e : rd_map_elem_t K V}
    (he : rd_map_elem_matches cmp hashf b k2 e = true) :
    cmp k e.key ≠ 0 := by
  obtain ⟨hr, hs, ht⟩ := hcq
  have h2 : cmp k2 e.key = 0 := by
    have := (Bool.and_eq_true _ _).mp he
    simpa using this.2
  exact fun hk => hne (ht _ _ _ hk (hs _ _ h2))

theorem find?_set_list_self {K V : Type} (cmp : K → K → Int)
    (hashf : K → Nat) (b : Nat) (k' : K) (v : V)
    (l : List (rd_map_elem_t K V)) (e : rd_map_elem_t K V)
    (hrefl : cmp k' k' = 0)
    (hf : l.find? (rd_map_elem_matches cmp hashf b k') = some e) :
    (rd_map_set_list cmp hashf b k' v l).1.find?
        (rd_map_elem_matches cmp hashf b k') =
      some { hash := e.hash, key := k', value := some v } := by
  induction l with
  | nil => simp at hf
  | cons a rest ih =>
    by_cases ha : rd_map_elem_matches cmp hashf b k' a
    · rw [List.find?_cons_of_pos _ ha] at hf
      have hae : a = e := by injection hf
      subst hae
      have hbkt : (a.hash % b == hashf k' % b) = true := by
        have := (Bool.and_eq_true _ _).mp ha
        exact this.1
      have hnew : rd_map_elem_matches cmp hashf b k'
          ({ hash := a.hash, key := k', value := some v } :
            rd_map_elem_t K V) = true := by
        simp [rd_map_elem_matches, hrefl]
        simpa using hbkt
      simp only [rd_map_set_list, ha, if_pos]
      rw [List.find?_cons_of_pos _ hnew]
    · rw [List.find?_cons_of_neg _ ha] at hf
      simp only [rd_map_set_list, ha, Bool.false_eq_true, if_false]
      rw [List.find?_cons_of_neg _ ha]
      exact ih hf

theorem find?_set_list_other {K V : Type} {cmp : K → K → Int}
    {hashf : K → Nat} (hcq : cmp_equiv cmp) (b : Nat) {k k' : K} (v : V)
    (hne : cmp k k' ≠ 0) (l : List (rd_map_elem_t K V)) :
    (rd_map_set_list cmp hashf b k' v l).1.find?
        (rd_map_elem_matches cmp hashf b k) =
      l.find? (rd_map_elem_matches cmp hashf b k) := by
  induction l with
  | nil => rfl
  | cons a rest ih =>
    by_cases ha : rd_map_elem_matches cmp hashf b k' a
    · have hka : rd_map_elem_matches cmp hashf b k a = false := by
        have := matches_trans_ne hcq hne ha
        simp [rd_map_elem_matches, this]
      have hknew : rd_map_elem_matches cmp hashf b k
          ({ hash := a.hash, key := k', value := some v } :
            rd_map_elem_t K V) = false := by
        simp [rd_map_elem_matches, hne]
      simp only [rd_map_set_list, ha, if_pos]
      rw [List.find?_cons_of_neg _ (by simp [hknew]),
        List.find?_cons_of_neg _ (by simp [hka])]
    · simp only [rd_map_set_list, ha, Bool.false_eq_true, if_false]
      by_cases hka : rd_map_elem_matches cmp hashf b k a
      · rw [List.find?_cons_of_pos _ hka, List.find?_cons_of_pos _ hka]
      · rw [List.find?_cons_of_neg _ hka, List.find?_cons_of_neg _ hka]
        exact ih

theorem cmp_ne_of_not_matches {K V : Type} {cmp : K → K → Int}
    {hashf : K → Nat} {b : Nat} (hhc : hash_compat cmp hashf)
    {k : K} {e : rd_map_elem_t K V} (hh : e.hash = hashf e.key)
    (hm : ¬ rd_map_elem_matches cmp hashf b k e = true) :
    cmp k e.key ≠ 0 := by
  intro hk
  apply hm
  have hb : e.hash % b = hashf k % b := by
    rw [hh, hhc k e.key hk]
  simp [rd_map_elem_matches, hb, hk]

theorem rd_map_set_found {K V : Type} (cmp : K → K → Int)
    (hashf : K → Nat) (dk dv : Bool) (m : rd_map_t K V) (k : K) (v : V)
    (e : rd_map_elem_t K V)
    (hf : rd_map_find cmp hashf m k = some e) :
    rd_map_set cmp hashf dk dv m k v =
      ({ m with
          rmap_iter :=
            (rd_map_set_list cmp hashf m.bucket_cnt k v m.rmap_iter).1 },
       if dk then [e.key] else [],
       if dv then [e.value] else []) := by
  obtain ⟨l2, o, hsl⟩ :
      ∃ l2 o, rd_map_set_list cmp hashf m.bucket_cnt k v m.rmap_iter =
        (l2, o) := ⟨_, _, rfl⟩
  have h1 : (rd_map_set_list cmp hashf m.bucket_cnt k v m.rmap_iter).1 = l2 := by
    rw [hsl]
  have ho : o = some e := by
    have h2 : (rd_map_set_list cmp hashf m.bucket_cnt k v m.rmap_iter).2 = o := by
      rw [hsl]
    rw [← h2, rd_map_set_list_snd]
    rw [rd_map_find] at hf
    exact hf
  subst ho
  simp only [rd_map_set, hsl, h1]

theorem rd_map_set_missing {K V : Type} (cmp : K → K → Int)
    (hashf : K → Nat) (dk dv : Bool) (m : rd_map_t K V) (k : K) (v : V)
    (hf : rd_map_find cmp hashf m k = none) :
    rd_map_set cmp hashf dk dv m k v =
      ({ m with
          rmap_iter :=
            { hash := hashf k, key := k, value := some v } :: m.rmap_iter,
          rmap_cnt := m.rmap_cnt + 1 },
       [], []) := by
  obtain ⟨l2, o, hsl⟩ :
      ∃ l2 o, rd_map_set_list cmp hashf m.bucket_cnt k v m.rmap_iter =
        (l2, o) := ⟨_, _, rfl⟩
  have ho : o = none := by
    have h2 : (rd_map_set_list cmp hashf m.bucket_cnt k v m.rmap_iter).2 = o := by
      rw [hsl]
    rw [← h2, rd_map_set_list_snd]
    rw [rd_map_find] at hf
    exact hf
  subst ho
  simp only [rd_map_set, hsl]

theorem rd_map_delete_found {K V : Type} (cmp : K → K → Int)
    (hashf : K → Nat) (dk dv : Bool) (m : rd_map_t K V) (k : K)
    (e : rd_map_elem_t K V)
    (hf : rd_map_find cmp hashf m k = some e) :
    rd_map_delete cmp hashf dk dv m k =
      ({ m with
          rmap_iter :=
            (rd_map_delete_list cmp hashf m.bucket_cnt k m.rmap_iter).1,
          rmap_cnt := m.rmap_cnt - 1 },
       if dk then [e.key] else [],
       if dv then [e.value] else []) := by
  obtain ⟨l2, o, hsl⟩ :
      ∃ l2 o, rd_map_delete_list cmp hashf m.bucket_cnt k m.rmap_iter =
        (l2, o) := ⟨_, _, rfl⟩
  have h1 : (rd_map_delete_list cmp hashf m.bucket_cnt k m.rmap_iter).1 = l2 := by
    rw [hsl]
  have ho : o = some e := by
    have h2 : (rd_map_delete_list cmp hashf m.bucket_cnt k m.rmap_iter).2 = o := by
      rw [hsl]
    rw [← h2, rd_map_delete_list_snd]
    rw [rd_map_find] at hf
    exact hf
  subst ho
  simp only [rd_map_delete, hsl, h1]

theorem rd_map_get_after_set {K V : Type} {cmp : K → K → Int}
    {hashf : K → Nat} (hcq : cmp_equiv cmp) (hhc : hash_compat cmp hashf)
    (dk dv : Bool) (m : rd_map_t K V) (k k' : K) (v : V) :
    rd_map_get cmp hashf (rd_map_set cmp hashf dk dv m k' v).1 k =
      if cmp k k' = 0 then some v else rd_map_get cmp hashf m k := by
  cases hf : rd_map_find cmp hashf m k' with
  | some e =>
    rw [rd_map_set_found cmp hashf dk dv m k' v e hf]
    by_cases heq : cmp k k' = 0
    · rw [if_pos heq]
      have hpred : rd_map_elem_matches cmp hashf m.bucket_cnt (V := V) k =
          rd_map_elem_matches cmp hashf m.bucket_cnt k' :=
        funext (rd_map_elem_matches_congr hcq hhc m.bucket_cnt heq)
      rw [rd_map_find] at hf
      have hfound := find?_set_list_self cmp hashf m.bucket_cnt k' v
        m.rmap_iter e (hcq.1 k') hf
      simp only [rd_map_get, rd_map_find]
      rw [show ({ m with
          rmap_iter :=
            (rd_map_set_list cmp hashf m.bucket_cnt k' v m.rmap_iter).1 } :
          rd_map_t K V).bucket_cnt = m.bucket_cnt from rfl]
      rw [hpred, hfound]
    · rw [if_neg heq]
      simp only [rd_map_get, rd_map_find]
      rw [show ({ m with
          rmap_iter :=
            (rd_map_set_list cmp hashf m.bucket_cnt k' v m.rmap_iter).1 } :
          rd_map_t K V).bucket_cnt = m.bucket_cnt from rfl]
      rw [find?_set_list_other hcq m.bucket_cnt v heq m.rmap_iter]
  | none =>
    rw [rd_map_set_missing cmp hashf dk dv m k' v hf]
    by_cases heq : cmp k k' = 0
    · rw [if_pos heq]
      have hnew : rd_map_elem_matches cmp hashf m.bucket_cnt k
          ({ hash := hashf k', key := k', value := some v } :
            rd_map_elem_t K V) = true := by
        simp [rd_map_elem_matches, heq, hhc k k' heq]
      simp only [rd_map_get, rd_map_find]
      rw [List.find?_cons_of_pos _ hnew]
    · rw [if_neg heq]
      have hnew : ¬ rd_map_elem_matches cmp hashf m.bucket_cnt k
          ({ hash := hashf k', key := k', value := some v } :
            rd_map_elem_t K V) = true := by
        simp [rd_map_elem_matches, heq]
      simp only [rd_map_get, rd_map_find]
      rw [List.find?_cons_of_neg _ hnew]

theorem rd_map_set_list_fst_length {K V : Type} (cmp : K → K → Int)
    (hashf : K → Nat) (b : Nat) (k : K) (v : V)
    (l : List (rd_map_elem_t K V)) :
    (rd_map_set_list cmp hashf b k v l).1.length = l.length := by
  induction l with
  | nil => rfl
  | cons a rest ih =>
    by_cases ha : rd_map_elem_matches cmp hashf b k a
    · simp [rd_map_set_list, ha]
    · simp [rd_map_set_list, ha, ih]

theorem rd_map_set_list_mem {K V : Type} (cmp : K → K → Int)
    (hashf : K → Nat) (b : Nat) (k : K) (v : V)
    (l : List (rd_map_elem_t K V)) (e2 : rd_map_elem_t K V)
    (hmem : e2 ∈ (rd_map_set_list cmp hashf b k v l).1) :
    e2 ∈ l ∨ e2.key = k := by
  induction l with
  | nil => simp [rd_map_set_list] at hmem
  | cons a rest ih =>
    by_cases ha : rd_map_elem_matches cmp hashf b k a
    · simp only [rd_map_set_list, ha, if_pos, List.mem_cons] at hmem
      rcases hmem with h | h
      · right
        rw [h]
      · exact Or.inl (List.mem_cons_of_mem a h)
    · simp only [rd_map_set_list, ha, Bool.false_eq_true, if_false,
        List.mem_cons] at hmem
      rcases hmem with h | h
      · exact Or.inl (h ▸ List.mem_cons_self a rest)
      · rcases ih h with h2 | h2
        · exact Or.inl (List.mem_cons_of_mem a h2)
        · exact Or.inr h2

theorem rd_map_set_list_hash_wf {K V : Type} {cmp : K → K → Int}
    {hashf : K → Nat} (hhc : hash_compat cmp hashf) (b : Nat) (k : K)
    (v : V) (l : List (rd_map_elem_t K V))
    (hh : ∀ e ∈ l, e.hash = hashf e.key) :
    ∀ e2 ∈ (rd_map_set_list cmp hashf b k v l).1, e2.hash = hashf e2.key := by
  induction l with
  | nil => simp [rd_map_set_list]
  | cons a rest ih =>
    have hha : a.hash = hashf a.key := hh a (List.mem_cons_self a rest)
    have hhr : ∀ e ∈ rest, e.hash = hashf e.key :=
      fun e he => hh e (List.mem_cons_of_mem a he)
    by_cases ha : rd_map_elem_matches cmp hashf b k a
    · intro e2 hmem
      simp only [rd_map_set_list, ha, if_pos, List.mem_cons] at hmem
      rcases hmem with h | h
      · have hck : cmp k a.key = 0 := by
          have := (Bool.and_eq_true _ _).mp ha
          simpa using this.2
        rw [h]
        show a.hash = hashf k
        rw [hha, hhc k a.key hck]
      · exact hhr e2 h
    · intro e2 hmem
      simp only [rd_map_set_list, ha, Bool.false_eq_true, if_false,
        List.mem_cons] at hmem
      rcases hmem with h | h
      · rw [h]
        exact hha
      · exact ih hhr e2 h

theorem rd_map_set_list_pairwise {K V : Type} {cmp : K → K → Int}
    {hashf : K → Nat} (hcq : cmp_equiv cmp) (hhc : hash_compat cmp hashf)
    (b : Nat) (k : K) (v : V) (l : List (rd_map_elem_t K V))
    (hh : ∀ e ∈ l, e.hash = hashf e.key)
    (hp : l.Pairwise fun a b2 => cmp a.key b2.key ≠ 0) :
    (rd_map_set_list cmp hashf b k v l).1.Pairwise
      fun a b2 => cmp a.key b2.key ≠ 0 := by
  obtain ⟨hr, hs, ht⟩ := hcq
  induction l with
  | nil => simp [rd_map_set_list]
  | cons a rest ih =>
    rw [List.pairwise_cons] at hp
    have hhr : ∀ e ∈ rest, e.hash = hashf e.key :=
      fun e he => hh e (List.mem_cons_of_mem a he)
    by_cases ha : rd_map_elem_matches cmp hashf b k a
    · have hck : cmp k a.key = 0 := by
        have := (Bool.and_eq_true _ _).mp ha
        simpa using this.2
      simp only [rd_map_set_list, ha, if_pos]
      rw [List.pairwise_cons]
      refine ⟨?_, hp.2⟩
      intro b2 hb2
      show cmp k b2.key ≠ 0
      intro hkb
      exact hp.1 b2 hb2 (ht _ _ _ (hs _ _ hck) hkb)
    · simp only [rd_map_set_list, ha, Bool.false_eq_true, if_false]
      rw [List.pairwise_cons]
      refine ⟨?_, ih hhr hp.2⟩
      intro b2 hb2
      rcases rd_map_set_list_mem cmp hashf b k v rest b2 hb2 with h | h
      · exact hp.1 b2 h
      · rw [h]
        have hka : cmp k a.key ≠ 0 :=
          cmp_ne_of_not_matches hhc (hh a (List.mem_cons_self a rest)) ha
        intro hak
        exact hka (hs _ _ hak)

theorem rd_map_wf_init {K V : Type} (cmp : K → K → Int) (hashf : K → Nat)
    (m : rd_map_t K V) (n : Nat) :
    rd_map_wf cmp hashf (rd_map_init m n) := by
  refine ⟨rfl, ?_, by simp [rd_map_init], by simp [rd_map_init]⟩
  show 0 < rd_map_alloc_buckets n
  rw [rd_map_alloc_buckets]
  by_cases h : n = 0
  · simp [h]
  · simp [h]
    omega

theorem rd_map_wf_set {K V : Type} {cmp : K → K → Int} {hashf : K → Nat}
    (hcq : cmp_equiv cmp) (hhc : hash_compat cmp hashf)
    (dk dv : Bool) (m : rd_map_t K V) (k : K) (v : V)
    (hwf : rd_map_wf cmp hashf m) :
    rd_map_wf cmp hashf (rd_map_set cmp hashf dk dv m k v).1 := by
  obtain ⟨hcnt, hbkt, hh, hp⟩ := hwf
  cases hf : rd_map_find cmp hashf m k with
  | some e =>
    rw [rd_map_set_found cmp hashf dk dv m k v e hf]
    refine ⟨?_, hbkt, ?_, ?_⟩
    · show m.rmap_cnt = (rd_map_set_list cmp hashf m.bucket_cnt k v
        m.rmap_iter).1.length
      rw [rd_map_set_list_fst_length, hcnt]
    · exact rd_map_set_list_hash_wf hhc m.bucket_cnt k v m.rmap_iter hh
    · exact rd_map_set_list_pairwise hcq hhc m.bucket_cnt k v m.rmap_iter hh hp
  | none =>
    rw [rd_map_set_missing cmp hashf dk dv m k v hf]
    have hnone : ∀ e2 ∈ m.rmap_iter,
        ¬ rd_map_elem_matches cmp hashf m.bucket_cnt k e2 = true := by
      rw [rd_map_find] at hf
      exact List.find?_eq_none.mp hf
    refine ⟨?_, hbkt, ?_, ?_⟩
    · show m.rmap_cnt + 1 = _ + 1
      rw [hcnt]
    · intro e2 hmem
      rw [List.mem_cons] at hmem
      rcases hmem with h | h
      · rw [h]
      · exact hh e2 h
    · rw [List.pairwise_cons]
      refine ⟨?_, hp⟩
      intro b2 hb2
      show cmp k b2.key ≠ 0
      exact cmp_ne_of_not_matches hhc (hh b2 hb2) (hnone b2 hb2)

theorem find?_delete_list_self {K V : Type} {cmp : K → K → Int}
    {hashf : K → Nat} (hcq : cmp_equiv cmp) (b : Nat) (k : K)
    (l : List (rd_map_elem_t K V)) (e : rd_map_elem_t K V)
    (hp : l.Pairwise fun a b2 => cmp a.key b2.key ≠ 0)
    (hf : l.find? (rd_map_elem_matches cmp hashf b k) = some e) :
    (rd_map_delete_list cmp hashf b k l).1.find?
      (rd_map_elem_matches cmp hashf b k) = none := by
  obtain ⟨hr, hs, ht⟩ := hcq
  induction l with
  | nil => simp at hf
  | cons a rest ih =>
    rw [List.pairwise_cons] at hp
    by_cases ha : rd_map_elem_matches cmp hashf b k a
    · have hck : cmp k a.key = 0 := by
        have := (Bool.and_eq_true _ _).mp ha
        simpa using this.2
      simp only [rd_map_delete_list, ha, if_pos]
      rw [List.find?_eq_none]
      intro b2 hb2 hmb2
      have hkb : cmp k b2.key = 0 := by
        have := (Bool.and_eq_true _ _).mp hmb2
        simpa using this.2
      exact hp.1 b2 hb2 (ht _ _ _ (hs _ _ hck) hkb)
    · rw [List.find?_cons_of_neg _ ha] at hf
      simp only [rd_map_delete_list, ha, Bool.false_eq_true, if_false]
      rw [List.find?_cons_of_neg _ ha]
      exact ih hp.2 hf

end BasicLemmas

section ClaimsEasy

variable {K V : Type}

/-- C10: `rd_map_iter` is total and returns 1 exactly on a non-NULL
cursor, and `rd_map_iter_next` is defined (returns `some`) precisely
under the hypothesis `rd_map_iter c = 1`; on the exhausted NULL cursor
the advance has no defined result. -/
theorem rdmap_C10 :
    (∀ c : List (rd_map_elem_t K V), rd_map_iter c = 1 ↔ c ≠ []) ∧
    (∀ c : List (rd_map_elem_t K V),
      rd_map_iter c = 1 → (rd_map_iter_next c).isSome = true) ∧
    rd_map_iter_next ([] : List (rd_map_elem_t K V)) = none := by
  refine ⟨fun c => ?_, fun c h => ?_, rfl⟩
  · cases c <;> simp [rd_map_iter]
  · cases c with
    | nil => simp [rd_map_iter] at h
    | cons e rest => simp [rd_map_iter_next]

/-- C10 witness: on a concrete one-element cursor the validity test
passes and the advance is defined. -/
theorem rdmap_C10_witness :
    (rd_map_iter_next
      [({ hash := 0, key := 0, value := none } : rd_map_elem_t Nat Nat)]).isSome
      = true :=
  (rdmap_C10 (K := Nat) (V := Nat)).2.1
    [{ hash := 0, key := 0, value := none }] (by decide)

/-- C9: each typed-facade macro is a direct forwarding call — the
engine state and destructor activity it produces are exactly those of
the corresponding engine operation on the underlying map, and
`RD_MAP_GET` evaluates to exactly `rd_map_get` on the underlying map. -/
theorem rdmap_C9 (cmp : K → K → Int) (hashf : K → Nat)
    (destroy_key destroy_value : Bool) (tm : typed_rd_map K V)
    (k : K) (v : V) :
    (RD_MAP_GET cmp hashf tm k).1 = rd_map_get cmp hashf tm.rmap k ∧
    (RD_MAP_GET cmp hashf tm k).2.rmap = tm.rmap ∧
    (RD_MAP_SET cmp hashf destroy_key destroy_value tm k v).1.rmap =
      (rd_map_set cmp hashf destroy_key destroy_value tm.rmap k v).1 ∧
    (RD_MAP_SET cmp hashf destroy_key destroy_value tm k v).2 =
      (rd_map_set cmp hashf destroy_key destroy_value tm.rmap k v).2 ∧
    (RD_MAP_DELETE cmp hashf destroy_key destroy_value tm k).1.rmap =
      (rd_map_delete cmp hashf destroy_key destroy_value tm.rmap k).1 ∧
    (RD_MAP_DELETE cmp hashf destroy_key destroy_value tm k).2 =
      (rd_map_delete cmp hashf destroy_key destroy_value tm.rmap k).2 :=
  ⟨rfl, rfl, rfl, rfl, rfl, rfl⟩

/-- C8: `rd_map_get` is read-only — the state-passing form of the scan
returns the map state unchanged, and its value component is exactly the
lookup result. -/
theorem rdmap_C8 (cmp : K → K → Int) (hashf : K → Nat)
    (m : rd_map_t K V) (k : K) :
    (rd_map_get_run cmp hashf m k).2 = m ∧
    (rd_map_get_run cmp hashf m k).1 = rd_map_get cmp hashf m k := by
  refine ⟨rfl, ?_⟩
  show rd_map_get_loop cmp hashf m.bucket_cnt k m.rmap_iter = _
  rw [rd_map_get_loop_eq_find]
  rfl

/-- C4: key-not-found is never a fault — when `k` is absent,
`rd_map_get` returns NULL and `rd_map_delete` is a complete no-op:
unchanged map (hence unchanged `rd_map_cnt`) and no destructor
invocation. -/
theorem rdmap_C4 (cmp : K → K → Int) (hashf : K → Nat)
    (destroy_key destroy_value : Bool) (m : rd_map_t K V) (k : K)
    (hfind : rd_map_find cmp hashf m k = none) :
    rd_map_get cmp hashf m k = none ∧
    rd_map_delete cmp hashf destroy_key destroy_value m k = (m, [], []) := by
  constructor
  · rw [rd_map_get, hfind]
  · rw [rd_map_delete, rd_map_delete_list_of_none cmp hashf m.bucket_cnt k
      m.rmap_iter hfind]

/-- C4 witness: key 2 is absent from the concrete two-element map; the
lookup is NULL and the delete leaves the map untouched. -/
theorem rdmap_C4_witness :
    rd_map_get exCmp exHash exMap1 2 = none ∧
    rd_map_delete exCmp exHash true true exMap1 2 = (exMap1, [], []) :=
  rdmap_C4 exCmp exHash true true exMap1 2 (by decide)

/-- C5: `rd_map_get_elem` on an absent key creates an element whose key
is `k` and whose value is unset, increments the count, and a second
call with the same key returns that same element with the map (hence
the count) unchanged. -/
theorem rdmap_C5 (cmp : K → K → Int) (hashf : K → Nat)
    (m : rd_map_t K V) (k : K)
    (hrefl : cmp k k = 0)
    (hfind : rd_map_find cmp hashf m k = none) :
    (rd_map_get_elem cmp hashf m k).1.key = k ∧
    (rd_map_get_elem cmp hashf m k).1.value = none ∧
    rd_map_cnt (rd_map_get_elem cmp hashf m k).2 = rd_map_cnt m + 1 ∧
    rd_map_get_elem cmp hashf (rd_map_get_elem cmp hashf m k).2 k =
      ((rd_map_get_elem cmp hashf m k).1,
       (rd_map_get_elem cmp hashf m k).2) := by
  have h1 : rd_map_get_elem cmp hashf m k =
      ({ hash := hashf k, key := k, value := none },
       { m with
          rmap_iter :=
            { hash := hashf k, key := k, value := none } :: m.rmap_iter,
          rmap_cnt := m.rmap_cnt + 1 }) := by
    rw [rd_map_get_elem, hfind]
  refine ⟨by rw [h1], by rw [h1], by rw [h1]; rfl, ?_⟩
  rw [h1]
  have hmatch : rd_map_elem_matches cmp hashf m.bucket_cnt k
      ({ hash := hashf k, key := k, value := none } : rd_map_elem_t K V)
      = true := by
    simp [rd_map_elem_matches, hrefl]
  rw [rd_map_get_elem, rd_map_find]
  simp only [List.find?, hmatch]

/-- C5 witness: `rd_map_get_elem` at the absent key 2 of the concrete
map creates the placeholder element and is idempotent on repetition. -/
theorem rdmap_C5_witness :
    (rd_map_get_elem exCmp exHash exMap1 2).1.key = 2 ∧
    (rd_map_get_elem exCmp exHash exMap1 2).1.value = none ∧
    rd_map_cnt (rd_map_get_elem exCmp exHash exMap1 2).2 =
      rd_map_cnt exMap1 + 1 ∧
    rd_map_get_elem exCmp exHash (rd_map_get_elem exCmp exHash exMap1 2).2 2 =
      ((rd_map_get_elem exCmp exHash exMap1 2).1,
       (rd_map_get_elem exCmp exHash exMap1 2).2) :=
  rdmap_C5 exCmp exHash exMap1 2 (by decide) (by decide)

end ClaimsEasy

section ClaimsMutation

/-- C2: overwriting a present key invokes the registered value
destructor exactly once on the old value and the registered key
destructor exactly once on the old key, leaves the count unchanged, and
a subsequent `rd_map_get` returns the new value. -/
theorem rdmap_C2 {K V : Type} (cmp : K → K → Int) (hashf : K → Nat)
    (dk dv : Bool) (hcq : cmp_equiv cmp) (hhc : hash_compat cmp hashf)
    (m : rd_map_t K V) (k : K) (e : rd_map_elem_t K V) (v1 v2 : V)
    (hfind : rd_map_find cmp hashf m k = some e)
    (hv : e.value = some v1) :
    (rd_map_set cmp hashf dk dv m k v2).2.1 =
      (if dk then [e.key] else []) ∧
    (rd_map_set cmp hashf dk dv m k v2).2.2 =
      (if dv then [some v1] else []) ∧
    rd_map_cnt (rd_map_set cmp hashf dk dv m k v2).1 = rd_map_cnt m ∧
    rd_map_get cmp hashf (rd_map_set cmp hashf dk dv m k v2).1 k =
      some v2 := by
  have hset := rd_map_set_found cmp hashf dk dv m k v2 e hfind
  refine ⟨by rw [hset], by rw [hset, hv], by rw [hset]; rfl, ?_⟩
  rw [rd_map_get_after_set hcq hhc dk dv m k k v2, if_pos (hcq.1 k)]

/-- C2 witness: overwriting key 0 (stored value 10) of the concrete map
with 99 destroys exactly the old pair, keeps the count, and the lookup
yields 99. -/
theorem rdmap_C2_witness :
    (rd_map_set exCmp exHash true true exMap1 0 99).2.1 = [(0 : Fin 3)] ∧
    (rd_map_set exCmp exHash true true exMap1 0 99).2.2 = [some 10] ∧
    rd_map_cnt (rd_map_set exCmp exHash true true exMap1 0 99).1 =
      rd_map_cnt exMap1 ∧
    rd_map_get exCmp exHash (rd_map_set exCmp exHash true true exMap1 0 99).1 0 =
      some 99 := by
  have h := rdmap_C2 exCmp exHash true true (by unfold cmp_equiv; decide)
    (by unfold hash_compat; decide) exMap1 0
    { hash := 0, key := 0, value := some 10 } 10 99 (by decide) (by decide)
  simpa using h

/-- C3: deleting a present key makes a subsequent lookup absent,
decreases the count by exactly one, and invokes the registered key and
value destructors exactly once each on that element's stored pair. -/
theorem rdmap_C3 {K V : Type} (cmp : K → K → Int) (hashf : K → Nat)
    (dk dv : Bool) (hcq : cmp_equiv cmp)
    (m : rd_map_t K V) (k : K) (e : rd_map_elem_t K V)
    (hwf : rd_map_wf cmp hashf m)
    (hfind : rd_map_find cmp hashf m k = some e) :
    rd_map_get cmp hashf (rd_map_delete cmp hashf dk dv m k).1 k = none ∧
    rd_map_cnt (rd_map_delete cmp hashf dk dv m k).1 + 1 = rd_map_cnt m ∧
    (rd_map_delete cmp hashf dk dv m k).2.1 =
      (if dk then [e.key] else []) ∧
    (rd_map_delete cmp hashf dk dv m k).2.2 =
      (if dv then [e.value] else []) := by
  obtain ⟨hcnt, hbkt, hh, hp⟩ := hwf
  have hdel := rd_map_delete_found cmp hashf dk dv m k e hfind
  have hfind2 :
      m.rmap_iter.find? (rd_map_elem_matches cmp hashf m.bucket_cnt k) =
        some e := by
    rw [rd_map_find] at hfind
    exact hfind
  refine ⟨?_, ?_, by rw [hdel], by rw [hdel]⟩
  · rw [hdel]
    simp only [rd_map_get, rd_map_find]
    rw [find?_delete_list_self hcq m.bucket_cnt k m.rmap_iter e hp hfind2]
  · rw [hdel]
    have hmem : e ∈ m.rmap_iter := List.mem_of_find?_eq_some hfind2
    have hpos : 0 < m.rmap_iter.length :=
      List.length_pos.mpr (List.ne_nil_of_mem hmem)
    show m.rmap_cnt - 1 + 1 = m.rmap_cnt
    omega

/-- C3 witness: deleting present key 1 (stored value 11) from the
concrete map empties its lookup, drops the count from 2 to 1 and
destroys exactly that pair. -/
theorem rdmap_C3_witness :
    rd_map_get exCmp exHash (rd_map_delete exCmp exHash true true exMap1 1).1 1 =
      none ∧
    rd_map_cnt (rd_map_delete exCmp exHash true true exMap1 1).1 + 1 =
      rd_map_cnt exMap1 ∧
    (rd_map_delete exCmp exHash true true exMap1 1).2.1 = [(1 : Fin 3)] ∧
    (rd_map_delete exCmp exHash true true exMap1 1).2.2 = [some 11] := by
  have h := rdmap_C3 exCmp exHash true true (by unfold cmp_equiv; decide)
    exMap1 1 { hash := 1, key := 1, value := some 11 }
    (by unfold rd_map_wf; decide) (by decide)
  simpa using h

end ClaimsMutation

section ClaimsTraversal

theorem rd_map_foreach_elem_eq {K V : Type}
    (l : List (rd_map_elem_t K V)) :
    rd_map_foreach_elem l = l := by
  induction l with
  | nil => rfl
  | cons e rest ih =>
    simp [rd_map_foreach_elem, rd_map_iter, ih]

/-- C6: a full begin/valid/advance traversal of a well-formed map
visits the whole iteration sequence, exactly `rd_map_cnt` elements,
each element exactly once; beginning on a freshly initialized map
yields a cursor that `rd_map_iter` reports invalid. -/
theorem rdmap_C6 {K V : Type} (cmp : K → K → Int) (hashf : K → Nat)
    (hcq : cmp_equiv cmp) (m : rd_map_t K V)
    (hwf : rd_map_wf cmp hashf m) :
    rd_map_foreach_elem (rd_map_iter_begin m) = m.rmap_iter ∧
    (rd_map_foreach_elem (rd_map_iter_begin m)).length = rd_map_cnt m ∧
    (rd_map_foreach_elem (rd_map_iter_begin m)).Nodup ∧
    (∀ (m0 : rd_map_t K V) (n : Nat),
      rd_map_iter (rd_map_iter_begin (rd_map_init m0 n)) = 0) := by
  obtain ⟨hcnt, hbkt, hh, hp⟩ := hwf
  have hfe := rd_map_foreach_elem_eq (rd_map_iter_begin m)
  refine ⟨hfe, ?_, ?_, fun m0 n => rfl⟩
  · rw [hfe]
    exact hcnt.symm
  · rw [hfe]
    show m.rmap_iter.Nodup
    refine hp.imp ?_
    intro a b hab habeq
    apply hab
    rw [← habeq]
    exact hcq.1 a.key

/-- C6 witness: traversing the concrete two-element map visits its two
elements exactly once each, and a fresh map's cursor is invalid. -/
theorem rdmap_C6_witness :
    rd_map_foreach_elem (rd_map_iter_begin exMap1) = exMap1.rmap_iter ∧
    (rd_map_foreach_elem (rd_map_iter_begin exMap1)).length =
      rd_map_cnt exMap1 ∧
    (rd_map_foreach_elem (rd_map_iter_begin exMap1)).Nodup ∧
    rd_map_iter (rd_map_iter_begin (rd_map_init exM0 7)) = 0 := by
  have h := rdmap_C6 exCmp exHash (by unfold cmp_equiv; decide) exMap1
    (by unfold rd_map_wf; decide)
  exact ⟨h.1, h.2.1, h.2.2.1, h.2.2.2 exM0 7⟩

/-- C7: destroying a well-formed map hands every surviving element's
key and value to the registered destructors exactly once each, leaves
the count at zero, and re-initializing the destroyed handle yields
exactly the map a fresh initialization of any handle yields. -/
theorem rdmap_C7 {K V : Type} (cmp : K → K → Int) (hashf : K → Nat)
    (dk dv : Bool) (m : rd_map_t K V) (hwf : rd_map_wf cmp hashf m) :
    rd_map_cnt (rd_map_destroy dk dv m).1 = 0 ∧
    (rd_map_destroy dk dv m).2.1 =
      (if dk then m.rmap_iter.map (fun e => e.key) else []) ∧
    (rd_map_destroy dk dv m).2.2 =
      (if dv then m.rmap_iter.map (fun e => e.value) else []) ∧
    (dk = true → (rd_map_destroy dk dv m).2.1.length = rd_map_cnt m) ∧
    (dv = true → (rd_map_destroy dk dv m).2.2.length = rd_map_cnt m) ∧
    (∀ n, rd_map_init (rd_map_destroy dk dv m).1 n = rd_map_init m n) := by
  obtain ⟨hcnt, hbkt, hh, hp⟩ := hwf
  refine ⟨rfl, rfl, rfl, ?_, ?_, fun n => rfl⟩
  · intro hdk
    show (if dk then m.rmap_iter.map (fun e => e.key) else []).length = _
    rw [if_pos hdk, List.length_map]
    exact hcnt.symm
  · intro hdv
    show (if dv then m.rmap_iter.map (fun e => e.value) else []).length = _
    rw [if_pos hdv, List.length_map]
    exact hcnt.symm

/-- C7 witness: destroying the concrete two-element map destroys its
two keys and two values exactly once each, zeroes the count, and
re-initialization equals fresh initialization. -/
theorem rdmap_C7_witness :
    rd_map_cnt (rd_map_destroy true true exMap1).1 = 0 ∧
    (rd_map_destroy true true exMap1).2.1 =
      exMap1.rmap_iter.map (fun e => e.key) ∧
    (rd_map_destroy true true exMap1).2.2 =
      exMap1.rmap_iter.map (fun e => e.value) ∧
    (rd_map_destroy true true exMap1).2.1.length = rd_map_cnt exMap1 ∧
    (rd_map_destroy true true exMap1).2.2.length = rd_map_cnt exMap1 ∧
    rd_map_init (rd_map_destroy true true exMap1).1 5 =
      rd_map_init exMap1 5 := by
  have h := rdmap_C7 exCmp exHash true true exMap1
    (by unfold rd_map_wf; decide)
  exact ⟨h.1, by simpa using h.2.1, by simpa using h.2.2.1,
    h.2.2.2.1 rfl, h.2.2.2.2.1 rfl, h.2.2.2.2.2 5⟩

end ClaimsTraversal

section SetSequence

theorem beq_zero_congr {x y : Int} (h : x = 0 ↔ y = 0) :
    (x == 0) = (y == 0) := by
  by_cases hx : x = 0
  · simp [hx, h.mp hx]
  · have hy : y ≠ 0 := fun hh => hx (h.mpr hh)
    simp [hx, hy]

theorem list_any_congr {α : Type} {f g : α → Bool} (l : List α)
    (h : ∀ x ∈ l, f x = g x) : l.any f = l.any g := by
  induction l with
  | nil => rfl
  | cons a rest ih =>
    simp only [List.any_cons]
    rw [h a (List.mem_cons_self a rest),
      ih fun x hx => h x (List.mem_cons_of_mem a hx)]

theorem rd_map_set_seq_append {K V : Type} (cmp : K → K → Int)
    (hashf : K → Nat) (dk dv : Bool) (m : rd_map_t K V)
    (xs ys : List (K × V)) :
    rd_map_set_seq cmp hashf dk dv m (xs ++ ys) =
      rd_map_set_seq cmp hashf dk dv
        (rd_map_set_seq cmp hashf dk dv m xs) ys := by
  induction xs generalizing m with
  | nil => rfl
  | cons p rest ih =>
    obtain ⟨k, v⟩ := p
    simp only [List.cons_append, rd_map_set_seq]
    exact ih _

theorem rd_map_cnt_after_set {K V : Type} (cmp : K → K → Int)
    (hashf : K → Nat) (dk dv : Bool) (m : rd_map_t K V) (k : K) (v : V) :
    rd_map_cnt (rd_map_set cmp hashf dk dv m k v).1 =
      if (rd_map_find cmp hashf m k).isSome then rd_map_cnt m
      else rd_map_cnt m + 1 := by
  cases hf : rd_map_find cmp hashf m k with
  | some e =>
    rw [rd_map_set_found cmp hashf dk dv m k v e hf]
    simp [rd_map_cnt]
  | none =>
    rw [rd_map_set_missing cmp hashf dk dv m k v hf]
    simp [rd_map_cnt]

theorem rd_map_find_isSome_after_set {K V : Type} {cmp : K → K → Int}
    {hashf : K → Nat} (hcq : cmp_equiv cmp) (hhc : hash_compat cmp hashf)
    (dk dv : Bool) (m : rd_map_t K V) (k k' : K) (v : V) :
    (rd_map_find cmp hashf (rd_map_set cmp hashf dk dv m k' v).1 k).isSome =
      ((cmp k k' == 0) || (rd_map_find cmp hashf m k).isSome) := by
  cases hf : rd_map_find cmp hashf m k' with
  | some e =>
    rw [rd_map_set_found cmp hashf dk dv m k' v e hf]
    by_cases heq : cmp k k' = 0
    · have hpred : rd_map_elem_matches cmp hashf m.bucket_cnt (V := V) k =
          rd_map_elem_matches cmp hashf m.bucket_cnt k' :=
        funext (rd_map_elem_matches_congr hcq hhc m.bucket_cnt heq)
      have hf2 : m.rmap_iter.find?
          (rd_map_elem_matches cmp hashf m.bucket_cnt k') = some e := by
        rw [rd_map_find] at hf
        exact hf
      have hfound := find?_set_list_self cmp hashf m.bucket_cnt k' v
        m.rmap_iter e (hcq.1 k') hf2
      simp only [rd_map_find]
      rw [hpred, hfound]
      simp [heq]
    · simp only [rd_map_find]
      rw [find?_set_list_other hcq m.bucket_cnt v heq m.rmap_iter]
      have hb : (cmp k k' == 0) = false := by
        simpa using heq
      rw [hb, Bool.false_or]
  | none =>
    rw [rd_map_set_missing cmp hashf dk dv m k' v hf]
    by_cases heq : cmp k k' = 0
    · have hnew : rd_map_elem_matches cmp hashf m.bucket_cnt k
          ({ hash := hashf k', key := k', value := some v } :
            rd_map_elem_t K V) = true := by
        simp [rd_map_elem_matches, heq, hhc k k' heq]
      simp only [rd_map_find]
      rw [List.find?_cons_of_pos _ hnew]
      simp [heq]
    · have hnew : ¬ rd_map_elem_matches cmp hashf m.bucket_cnt k
          ({ hash := hashf k', key := k', value := some v } :
            rd_map_elem_t K V) = true := by
        simp [rd_map_elem_matches, heq]
      simp only [rd_map_find]
      rw [List.find?_cons_of_neg _ hnew]
      have hb : (cmp k k' == 0) = false := by
        simpa using heq
      rw [hb, Bool.false_or]

theorem spec_last_set_append_one {K V : Type} (cmp : K → K → Int)
    (xs : List (K × V)) (k k' : K) (v : V) :
    spec_last_set cmp (xs ++ [(k', v)]) k =
      if cmp k k' = 0 then some v else spec_last_set cmp xs k := by
  unfold spec_last_set
  rw [List.filter_append]
  by_cases heq : cmp k k' = 0
  · rw [if_pos heq]
    have hb : (cmp k k' == 0) = true := by
      simpa using heq
    have h1 : List.filter (fun p => cmp k p.1 == 0) [(k', v)] = [(k', v)] := by
      simp [List.filter, hb]
    rw [h1, List.getLast?_concat]
    rfl
  · rw [if_neg heq]
    have hb : (cmp k k' == 0) = false := by
      simpa using heq
    have h1 : List.filter (fun p => cmp k p.1 == 0) [(k', v)] = [] := by
      simp [List.filter, hb]
    rw [h1, List.append_nil]

theorem spec_distinct_cnt_append_one {K : Type} {cmp : K → K → Int}
    (hcq : cmp_equiv cmp) (keys : List K) (k' : K) :
    spec_distinct_cnt cmp (keys ++ [k']) =
      spec_distinct_cnt cmp keys +
        (if keys.any fun k2 => cmp k' k2 == 0 then 0 else 1) := by
  obtain ⟨hr, hs, ht⟩ := hcq
  induction keys with
  | nil => simp [spec_distinct_cnt]
  | cons a keys ih =>
    rw [List.cons_append]
    simp only [spec_distinct_cnt, List.any_append, List.any_cons,
      List.any_nil, Bool.or_false]
    by_cases hak : cmp a k' = 0
    · have h1 : (cmp a k' == 0) = true := by
        simp [hak]
      have h2 : (cmp k' a == 0) = true := by
        simp [hs _ _ hak]
      have h3 : (keys.any fun k2 => cmp k' k2 == 0) =
          (keys.any fun k2 => cmp a k2 == 0) := by
        refine list_any_congr keys fun x _ => ?_
        refine beq_zero_congr ⟨fun hh => ht _ _ _ hak hh,
          fun hh => ht _ _ _ (hs _ _ hak) hh⟩
      simp only [h1, h2, h3, Bool.or_true, Bool.true_or, ih,
        eq_self_iff_true, if_true]
      omega
    · have h1 : (cmp a k' == 0) = false := by
        simpa using hak
      have h2 : (cmp k' a == 0) = false := by
        have : cmp k' a ≠ 0 := fun hh => hak (hs _ _ hh)
        simpa using this
      simp only [h1, h2, Bool.or_false, Bool.false_or, ih]
      omega

theorem rd_map_set_seq_spec {K V : Type} {cmp : K → K → Int}
    {hashf : K → Nat} (hcq : cmp_equiv cmp) (hhc : hash_compat cmp hashf)
    (dk dv : Bool) (m0 : rd_map_t K V) (n : Nat) (ops : List (K × V)) :
    rd_map_wf cmp hashf
      (rd_map_set_seq cmp hashf dk dv (rd_map_init m0 n) ops) ∧
    (∀ k, (rd_map_find cmp hashf
        (rd_map_set_seq cmp hashf dk dv (rd_map_init m0 n) ops) k).isSome =
      ((ops.map Prod.fst).any fun k2 => cmp k k2 == 0)) ∧
    (∀ k, rd_map_get cmp hashf
        (rd_map_set_seq cmp hashf dk dv (rd_map_init m0 n) ops) k =
      spec_last_set cmp ops k) ∧
    rd_map_cnt (rd_map_set_seq cmp hashf dk dv (rd_map_init m0 n) ops) =
      spec_distinct_cnt cmp (ops.map Prod.fst) := by
  induction ops using List.reverseRecOn with
  | nil =>
    exact ⟨rd_map_wf_init cmp hashf m0 n, fun k => rfl, fun k => rfl, rfl⟩
  | append_singleton xs p ih =>
    obtain ⟨k', v⟩ := p
    obtain ⟨ihwf, ihfind, ihget, ihcnt⟩ := ih
    rw [rd_map_set_seq_append]
    simp only [rd_map_set_seq]
    refine ⟨rd_map_wf_set hcq hhc dk dv _ k' v ihwf, ?_, ?_, ?_⟩
    · intro k
      rw [rd_map_find_isSome_after_set hcq hhc dk dv _ k k' v, ihfind k]
      simp only [List.map_append, List.any_append, List.map_cons,
        List.map_nil, List.any_cons, List.any_nil, Bool.or_false]
      exact Bool.or_comm _ _
    · intro k
      rw [rd_map_get_after_set hcq hhc dk dv _ k k' v,
        spec_last_set_append_one, ihget k]
    · rw [rd_map_cnt_after_set, ihfind k', ihcnt]
      simp only [List.map_append, List.map_cons, List.map_nil]
      rw [spec_distinct_cnt_append_one ⟨hcq.1, hcq.2.1, hcq.2.2⟩]
      by_cases hA : (xs.map Prod.fst).any fun k2 => cmp k' k2 == 0
      · simp [hA]
      · simp [hA]

end SetSequence

section ClaimOne

/-- C1: last-write-wins with distinct-key counting — after any sequence
of `rd_map_set` calls on a freshly initialized map, `rd_map_get k`
returns the value of the most recent set whose key equals `k` under the
comparator, and `rd_map_cnt` equals the number of comparator-distinct
keys inserted. -/
theorem rdmap_C1 {K V : Type} (cmp : K → K → Int) (hashf : K → Nat)
    (dk dv : Bool) (hcq : cmp_equiv cmp) (hhc : hash_compat cmp hashf)
    (m0 : rd_map_t K V) (n : Nat) (ops : List (K × V)) :
    (∀ k, rd_map_get cmp hashf
        (rd_map_set_seq cmp hashf dk dv (rd_map_init m0 n) ops) k =
      spec_last_set cmp ops k) ∧
    rd_map_cnt (rd_map_set_seq cmp hashf dk dv (rd_map_init m0 n) ops) =
      spec_distinct_cnt cmp (ops.map Prod.fst) :=
  ⟨(rd_map_set_seq_spec hcq hhc dk dv m0 n ops).2.2.1,
   (rd_map_set_seq_spec hcq hhc dk dv m0 n ops).2.2.2⟩

/-- C1 witness: for the concrete sequence set(0,10), set(1,20),
set(0,30) the lookup of key 0 is the most recent value and the count is
the number of distinct keys, 2. -/
theorem rdmap_C1_witness :
    rd_map_get exCmp exHash
      (rd_map_set_seq exCmp exHash true true (rd_map_init exM0 0)
        [(0, 10), (1, 20), (0, 30)]) 0 =
      spec_last_set exCmp [(0, 10), (1, 20), (0, 30)] 0 ∧
    rd_map_cnt
      (rd_map_set_seq exCmp exHash true true (rd_map_init exM0 0)
        [(0, 10), (1, 20), (0, 30)]) =
      spec_distinct_cnt exCmp
        (([(0, 10), (1, 20), (0, 30)] : List (Fin 3 × Nat)).map Prod.fst) := by
  have h := rdmap_C1 exCmp exHash true true (by unfold cmp_equiv; decide)
    (by unfold hash_compat; decide) exM0 0 [(0, 10), (1, 20), (0, 30)]
  exact ⟨h.1 0, h.2⟩

end ClaimOne
